import Mathlib

/-!
Shallow embedding of the order-execution tools of `crypt_agent`
(`src/crypt_agent/tools/custom_tool.py`): the sliced market-order executor
`advanced_sliced_executor`, the single-shot `place_market_order`, and the
batch submitter `execute_multiple_orders`.

Quantities are modelled as rationals (`ℚ`), exact arithmetic standing in for
Python floats.  The exchange session is modelled as an oracle (`Exchange`):
`instrumentsInfo` returns the `result.list` of `get_instruments_info`, and
`placeOrder n` is the outcome of the n-th `session.place_order` call of the
operation under scrutiny — `Except.ok orderId` when the call returns,
`Except.error msg` when it raises.  Each operation additionally returns the
list of order-submission attempts it performed, so that "zero submissions"
and "which slices were attempted" are stated directly.
-/

namespace CryptAgent

/-- One entry of an instrument's `lotSizeFilter`, as read by the executor
(`maxOrderQty`, `minOrderQty` fields of the Bybit instruments-info payload). -/
structure LotSizeFilter where
  maxOrderQty : ℚ
  minOrderQty : ℚ
deriving Repr, DecidableEq

/-- An instrument record: the fields of `result.list[0]` that the code reads
(`status` in `place_market_order`, `lotSizeFilter` in the sliced executor). -/
structure Instrument where
  status : String
  lotSizeFilter : LotSizeFilter
deriving Repr, DecidableEq

/-- The exchange session oracle: `instrumentsInfo s` is the `result.list`
returned by `get_instruments_info(category="linear", symbol=s)`, and
`placeOrder n` is the outcome of the n-th `place_order` call made by the
operation (order id on success, exception message on raise). -/
structure Exchange where
  instrumentsInfo : String → List Instrument
  placeOrder : Nat → Except String String

/-- Rendering of a rational quantity into report strings (stands in for
Python's float formatting inside f-strings). -/
def ratStr (q : ℚ) : String :=
  toString q.num ++ "/" ++ toString q.den

/-- The quantity arithmetic of the slicing loop (lines 269-296):
`while remaining_qty > 0: current_slice_qty = min(remaining_qty, max_order_qty);
remaining_qty -= current_slice_qty`, collecting the slice quantities in order.
The `fuel` argument bounds the number of iterations; `sliceSeq_fuel_stable`
shows `⌈total / maxOrderQty⌉₊` fuel reaches the loop's exit condition. -/
def sliceSeq : Nat → ℚ → ℚ → List ℚ
  | 0, _, _ => []
  | fuel + 1, remaining, maxq =>
    if 0 < remaining then
      min remaining maxq :: sliceSeq fuel (remaining - min remaining maxq) maxq
    else []

/-- The sequence of slice quantities the executor submits for a request of
`total` under per-order cap `maxq`. -/
def slices (total maxq : ℚ) : List ℚ :=
  sliceSeq ⌈total / maxq⌉₊ total maxq

/-- The body of `advanced_sliced_executor`'s while loop (lines 269-296),
with the surrounding `try/except` semantics made explicit: `placeOrder`
raising (`Except.error`) aborts the loop and propagates the error to the
operation-level handler.  `callIdx` counts `place_order` calls,
`ordersExecuted` is the Python list of the same name, and `attempts` records
every quantity submitted to `place_order` (instrumentation for the proofs;
it has no counterpart in the state of the Python code).  `fuel` bounds the
iterations; `⌈total_qty / max_order_qty⌉₊` is proved sufficient. -/
def execLoop (ex : Exchange) : Nat → Nat → ℚ → ℚ → List String → List ℚ →
    Except String (List String) × List ℚ
  | 0, _, _, _, ordersExecuted, attempts => (Except.ok ordersExecuted, attempts)
  | fuel + 1, callIdx, remaining, maxq, ordersExecuted, attempts =>
    if 0 < remaining then
      match ex.placeOrder callIdx with
      | Except.error e => (Except.error e, attempts ++ [min remaining maxq])
      | Except.ok oid =>
        execLoop ex fuel (callIdx + 1) (remaining - min remaining maxq) maxq
          (ordersExecuted ++ [ratStr (min remaining maxq) ++ " units (ID: " ++ oid ++ ")"])
          (attempts ++ [min remaining maxq])
    else (Except.ok ordersExecuted, attempts)

/-- Embedding of `advanced_sliced_executor` (lines 231-301).  Returns the
string the Python function returns, paired with the list of order-submission
attempts (quantities) it performed. -/
def advanced_sliced_executor (ex : Exchange) (symbol side : String) (total_qty : ℚ)
    (tp_price sl_price : String) : String × List ℚ :=
  match ex.instrumentsInfo symbol with
  | [] => ("Error: " ++ symbol ++ " not found.", [])
  | inst :: _ =>
    let max_order_qty := inst.lotSizeFilter.maxOrderQty
    let min_order_qty := inst.lotSizeFilter.minOrderQty
    if total_qty < min_order_qty then
      ("Failed: Quantity " ++ ratStr total_qty ++ " is below the minimum required (" ++
        ratStr min_order_qty ++ ").", [])
    else
      match execLoop ex ⌈total_qty / max_order_qty⌉₊ 0 total_qty max_order_qty [] [] with
      | (Except.ok ordersExecuted, attempts) =>
        ("SUCCESS: Fully executed " ++ ratStr total_qty ++ " " ++ symbol ++ " in " ++
          toString ordersExecuted.length ++ " slices:\n" ++
          String.intercalate "\n" ordersExecuted, attempts)
      | (Except.error e, attempts) => ("CRITICAL FAILURE: " ++ e, attempts)

/-- Embedding of `place_market_order` (lines 152-193) with `category`
fixed to its default `"linear"`: validates the symbol, then checks the
instrument's tradable status, and only then submits a single order.  The
second component lists the submitted order quantities (empty when validation
short-circuits before `place_order`). -/
def place_market_order (ex : Exchange) (symbol side qty tp_price sl_price : String) :
    String × List String :=
  match ex.instrumentsInfo symbol with
  | [] =>
    ("Error: '" ++ symbol ++ "' is not a valid Bybit symbol for the linear category.", [])
  | instrument_info :: _ =>
    if instrument_info.status ≠ "Trading" then
      ("Error: " ++ symbol ++ " exists but is currently " ++ instrument_info.status ++ ".", [])
    else
      match ex.placeOrder 0 with
      | Except.ok oid =>
        ("Success! " ++ side ++ " " ++ qty ++ " " ++ symbol ++ ". Order ID: " ++ oid, [qty])
      | Except.error e => ("Trade failed: " ++ e, [qty])

/-- One element of the `orders` list taken by `execute_multiple_orders`. -/
structure BatchOrder where
  symbol : String
  side : String
  quantity : String
deriving Repr, DecidableEq

/-- The `results` list built by `execute_multiple_orders`'s for loop
(lines 136-148): the i-th entry is the success or failure string of the
i-th order's submission; a raising submission is caught and recorded, and
the loop continues. -/
def batchResults (ex : Exchange) : Nat → List BatchOrder → List String
  | _, [] => []
  | i, o :: rest =>
    (match ex.placeOrder i with
     | Except.ok oid => "Success: " ++ o.symbol ++ " OrderID: " ++ oid
     | Except.error e => "Failed: " ++ o.symbol ++ " Error: " ++ e) ::
    batchResults ex (i + 1) rest

/-- Embedding of `execute_multiple_orders` (lines 125-150): newline-join of
the per-order results. -/
def execute_multiple_orders (ex : Exchange) (orders : List BatchOrder) : String :=
  String.intercalate "\n" (batchResults ex 0 orders)

/-- Report lines of a run in which every submission succeeds: one label per
slice, `f i` being the order id returned by the i-th `place_order` call. -/
def sliceLabels (f : Nat → String) : Nat → List ℚ → List String
  | _, [] => []
  | i, q :: qs => (ratStr q ++ " units (ID: " ++ f i ++ ")") :: sliceLabels f (i + 1) qs

/-- A concrete tradable instrument: max order quantity 10, minimum 1. -/
def instBTC : Instrument :=
  { status := "Trading", lotSizeFilter := { maxOrderQty := 10, minOrderQty := 1 } }

/-- The same instrument with trading suspended. -/
def instHalted : Instrument :=
  { status := "Halted", lotSizeFilter := { maxOrderQty := 10, minOrderQty := 1 } }

/-- An exchange on which every symbol resolves to `instBTC` and every
submission succeeds. -/
def exOk : Exchange where
  instrumentsInfo := fun _ => [instBTC]
  placeOrder := fun i => Except.ok ("ID" ++ toString i)

/-- An exchange on which every symbol resolves to `instBTC`, the second
submission (index 1) raises, and all others succeed. -/
def exFail2 : Exchange where
  instrumentsInfo := fun _ => [instBTC]
  placeOrder := fun i => if i = 1 then Except.error "boom" else Except.ok ("ID" ++ toString i)

/-- An exchange whose instrument lookup returns an empty list for every
symbol; submissions would succeed. -/
def exNoInst : Exchange where
  instrumentsInfo := fun _ => []
  placeOrder := fun i => Except.ok ("ID" ++ toString i)

/-- An exchange on which every symbol resolves to the suspended instrument
`instHalted`; submissions succeed. -/
def exHalted : Exchange where
  instrumentsInfo := fun _ => [instHalted]
  placeOrder := fun i => Except.ok ("ID" ++ toString i)

theorem sliceSeq_of_nonpos (fuel : Nat) (r maxq : ℚ) (hr : r ≤ 0) :
    sliceSeq fuel r maxq = [] := by
  cases fuel with
  | zero => rfl
  | succ n => simp [sliceSeq, not_lt.2 hr]

theorem sliceSeq_sum (maxq : ℚ) (hm : 0 < maxq) :
    ∀ (fuel : Nat) (r : ℚ), 0 ≤ r → r ≤ fuel * maxq →
      (sliceSeq fuel r maxq).sum = r := by
  intro fuel
  induction fuel with
  | zero =>
    intro r h0 hle
    simp only [Nat.cast_zero, zero_mul] at hle
    have : r = 0 := le_antisymm hle h0
    rw [sliceSeq_of_nonpos _ _ _ hle, this]
    rfl
  | succ n ih =>
    intro r h0 hle
    rcases lt_or_le 0 r with hpos | hnp
    · rw [sliceSeq]
      simp only [if_pos hpos, List.sum_cons]
      rcases le_total r maxq with hcase | hcase
      · rw [min_eq_left hcase]
        have hnil : sliceSeq n (0:ℚ) maxq = [] :=
          sliceSeq_of_nonpos _ _ _ (le_refl 0)
        rw [sub_self, hnil]
        simp
      · rw [min_eq_right hcase]
        have hrec : (sliceSeq n (r - maxq) maxq).sum = r - maxq := by
          apply ih
          · linarith
          · push_cast at hle ⊢
            linarith
        rw [hrec]; ring
    · have : r = 0 := le_antisymm hnp h0
      rw [sliceSeq_of_nonpos _ _ _ hnp, this]
      rfl

theorem sliceSeq_mem (maxq : ℚ) (hm : 0 < maxq) :
    ∀ (fuel : Nat) (r q : ℚ), q ∈ sliceSeq fuel r maxq → 0 < q ∧ q ≤ maxq := by
  intro fuel
  induction fuel with
  | zero => intro r q hq; simp [sliceSeq] at hq
  | succ n ih =>
    intro r q hq
    rw [sliceSeq] at hq
    by_cases hpos : 0 < r
    · rw [if_pos hpos] at hq
      rcases List.mem_cons.1 hq with heq | hmem
      · subst heq
        exact ⟨lt_min hpos hm, min_le_right _ _⟩
      · exact ih _ _ hmem
    · rw [if_neg hpos] at hq
      simp at hq

theorem sliceSeq_fuel_stable (maxq : ℚ) (hm : 0 < maxq) :
    ∀ (fuel k : Nat) (r : ℚ), r ≤ fuel * maxq →
      sliceSeq (fuel + k) r maxq = sliceSeq fuel r maxq := by
  intro fuel
  induction fuel with
  | zero =>
    intro k r hle
    simp only [Nat.cast_zero, zero_mul] at hle
    rw [sliceSeq_of_nonpos _ _ _ hle, sliceSeq_of_nonpos _ _ _ hle]
  | succ n ih =>
    intro k r hle
    rcases lt_or_le 0 r with hpos | hnp
    · have hstep : n + 1 + k = (n + k) + 1 := by omega
      rw [hstep, sliceSeq, sliceSeq, if_pos hpos, if_pos hpos]
      congr 1
      apply ih
      rcases le_total r maxq with hcase | hcase
      · rw [min_eq_left hcase]
        have : (0:ℚ) ≤ n * maxq := by positivity
        linarith
      · rw [min_eq_right hcase]
        push_cast at hle ⊢
        linarith
    · rw [sliceSeq_of_nonpos _ _ _ hnp, sliceSeq_of_nonpos _ _ _ hnp]

theorem le_ceil_mul (r maxq : ℚ) (hm : 0 < maxq) :
    r ≤ (⌈r / maxq⌉₊ : ℚ) * maxq := by
  have h1 : r / maxq ≤ (⌈r / maxq⌉₊ : ℚ) := Nat.le_ceil _
  calc r = r / maxq * maxq := by field_simp
    _ ≤ (⌈r / maxq⌉₊ : ℚ) * maxq := by
        exact mul_le_mul_of_nonneg_right h1 hm.le

theorem sliceSeq_length (maxq : ℚ) (hm : 0 < maxq) :
    ∀ (fuel : Nat) (r : ℚ), 0 ≤ r → r ≤ fuel * maxq →
      (sliceSeq fuel r maxq).length = ⌈r / maxq⌉₊ := by
  intro fuel
  induction fuel with
  | zero =>
    intro r h0 hle
    simp only [Nat.cast_zero, zero_mul] at hle
    have : r = 0 := le_antisymm hle h0
    subst this
    simp [sliceSeq]
  | succ n ih =>
    intro r h0 hle
    rcases lt_or_le 0 r with hpos | hnp
    · rw [sliceSeq, if_pos hpos]
      rcases le_total r maxq with hcase | hcase
      · rw [min_eq_left hcase, sub_self, sliceSeq_of_nonpos _ _ _ (le_refl 0)]
        have hceil : ⌈r / maxq⌉₊ = 1 := by
          rw [Nat.ceil_eq_iff one_ne_zero]
          constructor
          · simpa using div_pos hpos hm
          · rw [Nat.cast_one, div_le_one hm]; exact hcase
        simp [hceil]
      · rw [min_eq_right hcase]
        have hrec : (sliceSeq n (r - maxq) maxq).length = ⌈(r - maxq) / maxq⌉₊ := by
          apply ih
          · linarith
          · push_cast at hle ⊢; linarith
        rw [List.length_cons, hrec]
        have hdiv : (r - maxq) / maxq = r / maxq - 1 := by
          field_simp
        rw [hdiv]
        have h1le : (1:ℚ) ≤ r / maxq := by
          rw [le_div_iff₀ hm]; linarith
        have hup : r / maxq ≤ (⌈r / maxq - 1⌉₊ : ℚ) + 1 := by
          have := Nat.le_ceil (r / maxq - 1)
          linarith
        have hlow : ((⌈r / maxq - 1⌉₊ + 1 : Nat) : ℚ) - 1 < r / maxq := by
          have := Nat.ceil_lt_add_one (by linarith : (0:ℚ) ≤ r / maxq - 1)
          push_cast
          linarith
        symm
        rw [Nat.ceil_eq_iff (by omega)]
        constructor
        · simpa using hlow
        · push_cast; linarith
    · have : r = 0 := le_antisymm hnp h0
      subst this
      simp [sliceSeq]

theorem slices_sum (total maxq : ℚ) (h0 : 0 ≤ total) (hm : 0 < maxq) :
    (slices total maxq).sum = total :=
  sliceSeq_sum maxq hm _ total h0 (le_ceil_mul total maxq hm)

theorem slices_length (total maxq : ℚ) (h0 : 0 ≤ total) (hm : 0 < maxq) :
    (slices total maxq).length = ⌈total / maxq⌉₊ :=
  sliceSeq_length maxq hm _ total h0 (le_ceil_mul total maxq hm)

theorem execLoop_attempts_prefix (ex : Exchange) :
    ∀ (fuel callIdx : Nat) (r maxq : ℚ) (acc : List String) (att : List ℚ),
      ∃ l, (execLoop ex fuel callIdx r maxq acc att).2 = att ++ l := by
  intro fuel
  induction fuel with
  | zero => intro i r maxq acc att; exact ⟨[], by simp [execLoop]⟩
  | succ n ih =>
    intro i r maxq acc att
    by_cases hpos : 0 < r
    · rcases hord : ex.placeOrder i with e | oid
      · exact ⟨[min r maxq], by simp [execLoop, if_pos hpos, hord]⟩
      · rcases ih (i + 1) (r - min r maxq) maxq
          (acc ++ [ratStr (min r maxq) ++ " units (ID: " ++ oid ++ ")"])
          (att ++ [min r maxq]) with ⟨l, hl⟩
        refine ⟨min r maxq :: l, ?_⟩
        simp only [execLoop, if_pos hpos, hord, hl]
        simp
    · exact ⟨[], by simp [execLoop, if_neg hpos]⟩

theorem execLoop_error_step (ex : Exchange) (fuel callIdx : Nat) (r maxq : ℚ)
    (acc : List String) (att : List ℚ) (e : String)
    (hpos : 0 < r) (hord : ex.placeOrder callIdx = Except.error e) :
    execLoop ex (fuel + 1) callIdx r maxq acc att =
      (Except.error e, att ++ [min r maxq]) := by
  simp [execLoop, if_pos hpos, hord]

theorem execLoop_ok_step (ex : Exchange) (fuel callIdx : Nat) (r maxq : ℚ)
    (acc : List String) (att : List ℚ) (oid : String)
    (hpos : 0 < r) (hord : ex.placeOrder callIdx = Except.ok oid) :
    execLoop ex (fuel + 1) callIdx r maxq acc att =
      execLoop ex fuel (callIdx + 1) (r - min r maxq) maxq
        (acc ++ [ratStr (min r maxq) ++ " units (ID: " ++ oid ++ ")"])
        (att ++ [min r maxq]) := by
  simp [execLoop, if_pos hpos, hord]

theorem execLoop_allOk (ex : Exchange) (f : Nat → String)
    (hok : ∀ j, ex.placeOrder j = Except.ok (f j)) :
    ∀ (fuel callIdx : Nat) (r maxq : ℚ) (acc : List String) (att : List ℚ),
      execLoop ex fuel callIdx r maxq acc att =
        (Except.ok (acc ++ sliceLabels f callIdx (sliceSeq fuel r maxq)),
         att ++ sliceSeq fuel r maxq) := by
  intro fuel
  induction fuel with
  | zero => intro i r maxq acc att; simp [execLoop, sliceSeq, sliceLabels]
  | succ n ih =>
    intro i r maxq acc att
    by_cases hpos : 0 < r
    · rw [execLoop_ok_step ex n i r maxq acc att (f i) hpos (hok i), ih]
      rw [sliceSeq, if_pos hpos, sliceLabels]
      simp
    · simp [execLoop, if_neg hpos, sliceSeq, sliceLabels, not_lt.1 hpos,
        sliceSeq_of_nonpos _ _ _ (not_lt.1 hpos)]

theorem sliceSeq_dropLast (maxq : ℚ) :
    ∀ (fuel : Nat) (r q : ℚ), q ∈ (sliceSeq fuel r maxq).dropLast → q = maxq := by
  intro fuel
  induction fuel with
  | zero => intro r q hq; simp [sliceSeq] at hq
  | succ n ih =>
    intro r q hq
    rw [sliceSeq] at hq
    by_cases hpos : 0 < r
    · rw [if_pos hpos] at hq
      rcases le_total r maxq with hcase | hcase
      · rw [min_eq_left hcase, sub_self, sliceSeq_of_nonpos _ _ _ (le_refl 0)] at hq
        simp at hq
      · rw [min_eq_right hcase] at hq
        cases hnil : sliceSeq n (r - maxq) maxq with
        | nil => rw [hnil] at hq; simp at hq
        | cons a l =>
          rw [hnil, List.dropLast_cons₂] at hq
          rcases List.mem_cons.1 hq with heq | hmem
          · exact heq
          · exact ih (r - maxq) q (by rw [hnil]; exact hmem)
    · rw [if_neg hpos] at hq
      simp at hq

theorem ceil_div_25_10 : ⌈(25:ℚ) / 10⌉₊ = 3 := by
  rw [Nat.ceil_eq_iff (by norm_num)]
  norm_num

theorem ceil_div_10_10 : ⌈(10:ℚ) / 10⌉₊ = 1 := by
  rw [Nat.ceil_eq_iff (by norm_num)]
  norm_num

theorem slices_25_10 : slices 25 10 = [10, 10, 5] := by
  rw [slices, ceil_div_25_10]
  norm_num [sliceSeq, min_def]

theorem slices_10_10 : slices 10 10 = [10] := by
  rw [slices, ceil_div_10_10]
  norm_num [sliceSeq, min_def]

theorem sliceLabels_length (f : Nat → String) :
    ∀ (i : Nat) (qs : List ℚ), (sliceLabels f i qs).length = qs.length := by
  intro i qs
  induction qs generalizing i with
  | nil => rfl
  | cons q rest ih => simp [sliceLabels, ih]

theorem advanced_sliced_executor_not_found (ex : Exchange) (symbol side : String)
    (total : ℚ) (tp sl : String) (hempty : ex.instrumentsInfo symbol = []) :
    advanced_sliced_executor ex symbol side total tp sl =
      ("Error: " ++ symbol ++ " not found.", []) := by
  rw [advanced_sliced_executor, hempty]

theorem advanced_sliced_executor_below_min (ex : Exchange) (symbol side : String)
    (total : ℚ) (tp sl : String) (inst : Instrument) (rest : List Instrument)
    (hfound : ex.instrumentsInfo symbol = inst :: rest)
    (hlt : total < inst.lotSizeFilter.minOrderQty) :
    advanced_sliced_executor ex symbol side total tp sl =
      ("Failed: Quantity " ++ ratStr total ++ " is below the minimum required (" ++
        ratStr inst.lotSizeFilter.minOrderQty ++ ").", []) := by
  rw [advanced_sliced_executor, hfound]
  simp only [if_pos hlt]

theorem advanced_sliced_executor_run (ex : Exchange) (symbol side : String)
    (total : ℚ) (tp sl : String) (inst : Instrument) (rest : List Instrument)
    (hfound : ex.instrumentsInfo symbol = inst :: rest)
    (hge : ¬ total < inst.lotSizeFilter.minOrderQty) :
    advanced_sliced_executor ex symbol side total tp sl =
      (match execLoop ex ⌈total / inst.lotSizeFilter.maxOrderQty⌉₊ 0 total
          inst.lotSizeFilter.maxOrderQty [] [] with
       | (Except.ok ordersExecuted, attempts) =>
         ("SUCCESS: Fully executed " ++ ratStr total ++ " " ++ symbol ++ " in " ++
           toString ordersExecuted.length ++ " slices:\n" ++
           String.intercalate "\n" ordersExecuted, attempts)
       | (Except.error e, attempts) => ("CRITICAL FAILURE: " ++ e, attempts)) := by
  rw [advanced_sliced_executor, hfound]
  simp only [if_neg hge]

theorem execLoop_snd_cons (ex : Exchange) (fuel callIdx : Nat) (r maxq : ℚ)
    (acc : List String) (att : List ℚ) (hpos : 0 < r) :
    ∃ l, (execLoop ex (fuel + 1) callIdx r maxq acc att).2 = att ++ min r maxq :: l := by
  rcases hord : ex.placeOrder callIdx with e | oid
  · exact ⟨[], by rw [execLoop_error_step ex fuel callIdx r maxq acc att e hpos hord]⟩
  · rw [execLoop_ok_step ex fuel callIdx r maxq acc att oid hpos hord]
    rcases execLoop_attempts_prefix ex fuel (callIdx + 1) (r - min r maxq) maxq
      (acc ++ [ratStr (min r maxq) ++ " units (ID: " ++ oid ++ ")"])
      (att ++ [min r maxq]) with ⟨l, hl⟩
    exact ⟨l, by rw [hl]; simp⟩

theorem batchResults_length (ex : Exchange) :
    ∀ (i : Nat) (orders : List BatchOrder),
      (batchResults ex i orders).length = orders.length := by
  intro i orders
  induction orders generalizing i with
  | nil => rfl
  | cons o rest ih => simp [batchResults, ih]

theorem batchResults_getElem (ex : Exchange) :
    ∀ (orders : List BatchOrder) (start i : Nat) (h : i < orders.length),
      (batchResults ex start orders).get ⟨i, by rw [batchResults_length]; exact h⟩ =
        match ex.placeOrder (start + i) with
        | Except.ok oid => "Success: " ++ (orders.get ⟨i, h⟩).symbol ++ " OrderID: " ++ oid
        | Except.error e => "Failed: " ++ (orders.get ⟨i, h⟩).symbol ++ " Error: " ++ e := by
  intro orders
  induction orders with
  | nil => intro start i h; simp at h
  | cons o rest ih =>
    intro start i h
    cases i with
    | zero => simp [batchResults]
    | succ j =>
      have hj : j < rest.length := by simpa using h
      have := ih (start + 1) j hj
      simp only [batchResults, List.get_cons_succ]
      rw [this]
      have harith : start + 1 + j = start + (j + 1) := by omega
      rw [harith]

theorem batchResults_placeOrder_congr (ex ex2 : Exchange)
    (hsame : ex.placeOrder = ex2.placeOrder) :
    ∀ (i : Nat) (orders : List BatchOrder),
      batchResults ex i orders = batchResults ex2 i orders := by
  intro i orders
  induction orders generalizing i with
  | nil => rfl
  | cons o rest ih => simp [batchResults, hsame, ih]

/-- C2: for every total quantity at least the instrument's (positive) minimum
order quantity and every positive maximum order quantity, the slice quantities
produced by the decomposition loop sum exactly to the total; in an execution
whose submissions all succeed, the quantities actually submitted also sum
exactly to the total (no remainder, no excess). -/
theorem sliced_executor_quantity_conservation (total maxq minq : ℚ)
    (hminpos : 0 < minq) (hge : minq ≤ total) (hmax : 0 < maxq) :
    (slices total maxq).sum = total ∧
    ∀ (ex : Exchange) (symbol side tp sl : String) (inst : Instrument)
      (rest : List Instrument) (f : Nat → String),
      ex.instrumentsInfo symbol = inst :: rest →
      inst.lotSizeFilter.maxOrderQty = maxq →
      inst.lotSizeFilter.minOrderQty = minq →
      (∀ j, ex.placeOrder j = Except.ok (f j)) →
      ((advanced_sliced_executor ex symbol side total tp sl).2).sum = total := by
  have htot : (0:ℚ) ≤ total := le_of_lt (lt_of_lt_of_le hminpos hge)
  refine ⟨slices_sum total maxq htot hmax, ?_⟩
  intro ex symbol side tp sl inst rest f hfound hmaxeq hmineq hok
  rw [advanced_sliced_executor_run ex symbol side total tp sl inst rest hfound
    (by rw [hmineq]; exact not_lt.2 hge)]
  rw [execLoop_allOk ex f hok]
  simp only [List.nil_append]
  rw [hmaxeq]
  exact slices_sum total maxq htot hmax

/-- C2 witness: minimum 1, total 25, maximum 10. -/
theorem sliced_executor_quantity_conservation_witness :
    (0:ℚ) < 1 ∧ (1:ℚ) ≤ 25 ∧ (0:ℚ) < 10 ∧ (slices 25 10).sum = 25 :=
  ⟨by norm_num, by norm_num, by norm_num,
   (sliced_executor_quantity_conservation 25 10 1 (by norm_num) (by norm_num)
     (by norm_num)).1⟩

/-- C3: under the same validity hypotheses, the decomposition produces exactly
`⌈total / maxq⌉₊` slices, every slice except possibly the last equals the
maximum, and the two concrete scenarios hold: total 25 with maximum 10 gives
`[10, 10, 5]` in that order, and total 10 with maximum 10 gives `[10]`. -/
theorem sliced_executor_slice_count_and_order (total maxq minq : ℚ)
    (hminpos : 0 < minq) (hge : minq ≤ total) (hmax : 0 < maxq) :
    (slices total maxq).length = ⌈total / maxq⌉₊ ∧
    (∀ q ∈ (slices total maxq).dropLast, q = maxq) ∧
    slices 25 10 = [10, 10, 5] ∧
    slices 10 10 = [10] :=
  ⟨slices_length total maxq (le_of_lt (lt_of_lt_of_le hminpos hge)) hmax,
   fun q hq => sliceSeq_dropLast maxq _ total q hq,
   slices_25_10, slices_10_10⟩

/-- C3 witness: minimum 1, total 25, maximum 10. -/
theorem sliced_executor_slice_count_and_order_witness :
    (0:ℚ) < 1 ∧ (1:ℚ) ≤ 25 ∧ (0:ℚ) < 10 ∧ (slices 25 10).length = ⌈(25:ℚ) / 10⌉₊ :=
  ⟨by norm_num, by norm_num, by norm_num,
   (sliced_executor_slice_count_and_order 25 10 1 (by norm_num) (by norm_num)
     (by norm_num)).1⟩

/-- C4: for positive total and maximum, every slice quantity produced is
positive and at most the maximum order quantity. -/
theorem sliced_executor_slice_bounds (total maxq : ℚ)
    (htot : 0 < total) (hmax : 0 < maxq) :
    ∀ q ∈ slices total maxq, 0 < q ∧ q ≤ maxq :=
  fun q hq => sliceSeq_mem maxq hmax _ total q hq

/-- C4 witness: the slice 5 of the decomposition of 25 under maximum 10. -/
theorem sliced_executor_slice_bounds_witness :
    (0:ℚ) < 25 ∧ (0:ℚ) < 10 ∧ ((0:ℚ) < 5 ∧ (5:ℚ) ≤ 10) :=
  ⟨by norm_num, by norm_num,
   sliced_executor_slice_bounds 25 10 (by norm_num) (by norm_num) 5
     (by rw [slices_25_10]; simp)⟩

/-- C5: for every total quantity and positive maximum, the loop reaches its
exit condition within `⌈total / maxq⌉₊` iterations: granting the recursion
any extra fuel beyond that bound changes nothing, and the number of
iterations performed is exactly `⌈total / maxq⌉₊`. -/
theorem sliced_executor_loop_terminates (total maxq : ℚ) (hmax : 0 < maxq) :
    (∀ extra : Nat, sliceSeq (⌈total / maxq⌉₊ + extra) total maxq = slices total maxq) ∧
    (slices total maxq).length = ⌈total / maxq⌉₊ := by
  constructor
  · intro extra
    exact sliceSeq_fuel_stable maxq hmax _ extra total (le_ceil_mul total maxq hmax)
  · rcases le_or_lt total 0 with hle | hpos
    · have hz : ⌈total / maxq⌉₊ = 0 := by
        rw [Nat.ceil_eq_zero]
        exact div_nonpos_iff.2 (Or.inr ⟨hle, hmax.le⟩)
      rw [slices, sliceSeq_of_nonpos _ _ _ hle, hz]
      rfl
    · exact slices_length total maxq hpos.le hmax

/-- C5 witness: total 25, maximum 10. -/
theorem sliced_executor_loop_terminates_witness :
    (0:ℚ) < 10 ∧ (slices 25 10).length = ⌈(25:ℚ) / 10⌉₊ :=
  ⟨by norm_num, (sliced_executor_loop_terminates 25 10 (by norm_num)).2⟩

/-- C6: when the requested total is strictly below the instrument's minimum
order quantity, the sliced executor returns the quantity-too-small failure
string and performs zero order submissions. -/
theorem sliced_executor_below_minimum_short_circuit (ex : Exchange)
    (symbol side : String) (total : ℚ) (tp sl : String) (inst : Instrument)
    (rest : List Instrument)
    (hfound : ex.instrumentsInfo symbol = inst :: rest)
    (hlt : total < inst.lotSizeFilter.minOrderQty) :
    advanced_sliced_executor ex symbol side total tp sl =
      ("Failed: Quantity " ++ ratStr total ++ " is below the minimum required (" ++
        ratStr inst.lotSizeFilter.minOrderQty ++ ").", []) :=
  advanced_sliced_executor_below_min ex symbol side total tp sl inst rest hfound hlt

/-- C6 witness: total 1/2 against minimum 1. -/
theorem sliced_executor_below_minimum_short_circuit_witness :
    exOk.instrumentsInfo "BTCUSDT" = instBTC :: [] ∧
    (1/2 : ℚ) < instBTC.lotSizeFilter.minOrderQty ∧
    advanced_sliced_executor exOk "BTCUSDT" "Buy" (1/2) "tp" "sl" =
      ("Failed: Quantity " ++ ratStr (1/2) ++ " is below the minimum required (" ++
        ratStr instBTC.lotSizeFilter.minOrderQty ++ ").", []) :=
  ⟨rfl, by norm_num [instBTC],
   sliced_executor_below_minimum_short_circuit exOk "BTCUSDT" "Buy" (1/2) "tp" "sl"
     instBTC [] rfl (by norm_num [instBTC])⟩

/-- C7: when the instrument lookup returns an empty list, the sliced executor
returns the symbol-not-found failure string and performs zero order
submissions. -/
theorem sliced_executor_unknown_symbol_short_circuit (ex : Exchange)
    (symbol side : String) (total : ℚ) (tp sl : String)
    (hempty : ex.instrumentsInfo symbol = []) :
    advanced_sliced_executor ex symbol side total tp sl =
      ("Error: " ++ symbol ++ " not found.", []) :=
  advanced_sliced_executor_not_found ex symbol side total tp sl hempty

/-- C7 witness: a symbol that resolves to no instrument. -/
theorem sliced_executor_unknown_symbol_short_circuit_witness :
    exNoInst.instrumentsInfo "NONEXISTENT" = [] ∧
    advanced_sliced_executor exNoInst "NONEXISTENT" "Buy" 25 "tp" "sl" =
      ("Error: " ++ "NONEXISTENT" ++ " not found.", []) :=
  ⟨rfl, sliced_executor_unknown_symbol_short_circuit exNoInst "NONEXISTENT" "Buy" 25
    "tp" "sl" rfl⟩

/-- C8: on an instrument whose status is not "Trading",
`place_market_order` returns the not-tradable error string without
submitting any order, while `advanced_sliced_executor` performs no status
check and submits at least one slice. -/
theorem status_check_asymmetry (ex : Exchange) (symbol side qty tp sl : String)
    (total : ℚ) (inst : Instrument) (rest : List Instrument)
    (hfound : ex.instrumentsInfo symbol = inst :: rest)
    (hstatus : inst.status ≠ "Trading")
    (hminpos : 0 < inst.lotSizeFilter.minOrderQty)
    (hge : inst.lotSizeFilter.minOrderQty ≤ total)
    (hmax : 0 < inst.lotSizeFilter.maxOrderQty) :
    place_market_order ex symbol side qty tp sl =
      ("Error: " ++ symbol ++ " exists but is currently " ++ inst.status ++ ".", []) ∧
    (advanced_sliced_executor ex symbol side total tp sl).2 ≠ [] := by
  constructor
  · rw [place_market_order, hfound]
    simp only [ne_eq, hstatus, not_false_eq_true, if_true]
  · rw [advanced_sliced_executor_run ex symbol side total tp sl inst rest hfound
      (not_lt.2 hge)]
    have htot : 0 < total := lt_of_lt_of_le hminpos hge
    have hfuel : 0 < ⌈total / inst.lotSizeFilter.maxOrderQty⌉₊ := by
      rw [Nat.ceil_pos]
      exact div_pos htot hmax
    obtain ⟨g, hg⟩ : ∃ g, ⌈total / inst.lotSizeFilter.maxOrderQty⌉₊ = g + 1 :=
      ⟨⌈total / inst.lotSizeFilter.maxOrderQty⌉₊ - 1, by omega⟩
    rw [hg]
    rcases execLoop_snd_cons ex g 0 total inst.lotSizeFilter.maxOrderQty [] [] htot
      with ⟨l, hl⟩
    rcases hres : execLoop ex (g + 1) 0 total inst.lotSizeFilter.maxOrderQty [] []
      with ⟨res, att⟩
    have hatt : att = [] ++ min total inst.lotSizeFilter.maxOrderQty :: l := by
      rw [← hl, hres]
    cases res <;> simp [hatt]

/-- C8 witness: a suspended instrument, total 25. -/
theorem status_check_asymmetry_witness :
    exHalted.instrumentsInfo "BTCUSDT" = instHalted :: [] ∧
    instHalted.status ≠ "Trading" ∧
    (0:ℚ) < instHalted.lotSizeFilter.minOrderQty ∧
    instHalted.lotSizeFilter.minOrderQty ≤ 25 ∧
    (0:ℚ) < instHalted.lotSizeFilter.maxOrderQty ∧
    (place_market_order exHalted "BTCUSDT" "Buy" "25" "tp" "sl" =
      ("Error: " ++ "BTCUSDT" ++ " exists but is currently " ++ instHalted.status ++ ".",
       []) ∧
     (advanced_sliced_executor exHalted "BTCUSDT" "Buy" 25 "tp" "sl").2 ≠ []) :=
  ⟨rfl, by simp [instHalted], by norm_num [instHalted], by norm_num [instHalted],
   by norm_num [instHalted],
   status_check_asymmetry exHalted "BTCUSDT" "Buy" "25" "tp" "sl" 25 instHalted []
     rfl (by simp [instHalted]) (by norm_num [instHalted]) (by norm_num [instHalted])
     (by norm_num [instHalted])⟩

/-- C9: the batch submitter produces exactly one outcome per input order; its
i-th report line is the success line when the i-th submission returns and
the failure line when it raises (the exception is caught, not propagated);
the returned string is the newline-join of those lines; and the whole
operation is insensitive to the instrument catalogue (no instrument
validation is performed). -/
theorem execute_multiple_orders_per_order_outcomes (ex ex2 : Exchange)
    (orders : List BatchOrder) (hsame : ex.placeOrder = ex2.placeOrder) :
    (batchResults ex 0 orders).length = orders.length ∧
    execute_multiple_orders ex orders = String.intercalate "\n" (batchResults ex 0 orders) ∧
    execute_multiple_orders ex orders = execute_multiple_orders ex2 orders ∧
    ∀ (i : Nat) (h : i < orders.length),
      (batchResults ex 0 orders).get ⟨i, by rw [batchResults_length]; exact h⟩ =
        match ex.placeOrder i with
        | Except.ok oid => "Success: " ++ (orders.get ⟨i, h⟩).symbol ++ " OrderID: " ++ oid
        | Except.error e => "Failed: " ++ (orders.get ⟨i, h⟩).symbol ++ " Error: " ++ e := by
  refine ⟨batchResults_length ex 0 orders, rfl, ?_, ?_⟩
  · rw [execute_multiple_orders, execute_multiple_orders,
      batchResults_placeOrder_congr ex ex2 hsame]
  · intro i h
    have := batchResults_getElem ex orders 0 i h
    simpa using this

/-- C9 witness: a singleton batch against two exchanges that share the
submission oracle but differ in instrument catalogue. -/
theorem execute_multiple_orders_per_order_outcomes_witness :
    exOk.placeOrder = exNoInst.placeOrder ∧
    execute_multiple_orders exOk [⟨"BTCUSDT", "Buy", "1"⟩] =
      execute_multiple_orders exNoInst [⟨"BTCUSDT", "Buy", "1"⟩] :=
  ⟨rfl, (execute_multiple_orders_per_order_outcomes exOk exNoInst
    [⟨"BTCUSDT", "Buy", "1"⟩] rfl).2.2.1⟩

/-- C10: the sliced executor returns a plain result for every input (all
exceptions are absorbed by the operation-level handler), and when the first
slice is placed successfully and the second submission raises, the returned
string is the single aggregate message `CRITICAL FAILURE: <error>` — one
that does not mention the first slice's order id (the result is the same for
every value of `id0`) — and exactly two submission attempts were made. -/
theorem sliced_executor_failure_single_aggregate_message (ex : Exchange)
    (symbol side tp sl : String) (total : ℚ) (inst : Instrument)
    (rest : List Instrument) (id0 e : String)
    (hfound : ex.instrumentsInfo symbol = inst :: rest)
    (hminpos : 0 < inst.lotSizeFilter.minOrderQty)
    (hge : inst.lotSizeFilter.minOrderQty ≤ total)
    (hmax : 0 < inst.lotSizeFilter.maxOrderQty)
    (hgt : inst.lotSizeFilter.maxOrderQty < total)
    (h0 : ex.placeOrder 0 = Except.ok id0)
    (h1 : ex.placeOrder 1 = Except.error e) :
    advanced_sliced_executor ex symbol side total tp sl =
      ("CRITICAL FAILURE: " ++ e,
       [inst.lotSizeFilter.maxOrderQty,
        min (total - inst.lotSizeFilter.maxOrderQty) inst.lotSizeFilter.maxOrderQty]) := by
  rw [advanced_sliced_executor_run ex symbol side total tp sl inst rest hfound
    (not_lt.2 hge)]
  have htot : 0 < total := lt_of_lt_of_le hminpos hge
  have h2 : 2 ≤ ⌈total / inst.lotSizeFilter.maxOrderQty⌉₊ := by
    have hd : (1:ℚ) < total / inst.lotSizeFilter.maxOrderQty := (one_lt_div hmax).2 hgt
    have := Nat.lt_ceil.2 (by push_cast; exact hd :
      ((1:Nat):ℚ) < total / inst.lotSizeFilter.maxOrderQty)
    omega
  obtain ⟨g, hg⟩ : ∃ g, ⌈total / inst.lotSizeFilter.maxOrderQty⌉₊ = (g + 1) + 1 :=
    ⟨⌈total / inst.lotSizeFilter.maxOrderQty⌉₊ - 2, by omega⟩
  rw [hg]
  rw [execLoop_ok_step ex (g + 1) 0 total inst.lotSizeFilter.maxOrderQty [] [] id0 htot h0]
  rw [min_eq_right hgt.le]
  have hpos2 : 0 < total - inst.lotSizeFilter.maxOrderQty := by linarith
  rw [execLoop_error_step ex g 1 (total - inst.lotSizeFilter.maxOrderQty)
    inst.lotSizeFilter.maxOrderQty _ _ e hpos2 h1]
  simp

/-- C10 witness: total 25 on the exchange whose second submission raises. -/
theorem sliced_executor_failure_single_aggregate_message_witness :
    exFail2.instrumentsInfo "BTCUSDT" = instBTC :: [] ∧
    (0:ℚ) < instBTC.lotSizeFilter.minOrderQty ∧
    instBTC.lotSizeFilter.minOrderQty ≤ 25 ∧
    (0:ℚ) < instBTC.lotSizeFilter.maxOrderQty ∧
    instBTC.lotSizeFilter.maxOrderQty < 25 ∧
    exFail2.placeOrder 0 = Except.ok ("ID" ++ toString 0) ∧
    exFail2.placeOrder 1 = Except.error "boom" ∧
    advanced_sliced_executor exFail2 "BTCUSDT" "Buy" 25 "tp" "sl" =
      ("CRITICAL FAILURE: " ++ "boom",
       [instBTC.lotSizeFilter.maxOrderQty,
        min (25 - instBTC.lotSizeFilter.maxOrderQty) instBTC.lotSizeFilter.maxOrderQty]) :=
  ⟨rfl, by norm_num [instBTC], by norm_num [instBTC], by norm_num [instBTC],
   by norm_num [instBTC], rfl, rfl,
   sliced_executor_failure_single_aggregate_message exFail2 "BTCUSDT" "Buy" "tp" "sl"
     25 instBTC [] ("ID" ++ toString 0) "boom" rfl (by norm_num [instBTC])
     (by norm_num [instBTC]) (by norm_num [instBTC]) (by norm_num [instBTC]) rfl rfl⟩

/-- C1 counterexample: on a request of 25 sliced as 10, 10, 5 where the second
submission raises and the first and third would succeed, the executor does
NOT produce a three-entry report; it makes only two submission attempts and
returns the single aggregate failure string. -/
theorem sliced_executor_three_slice_failure_counterexample :
    advanced_sliced_executor exFail2 "BTCUSDT" "Buy" 25 "tp" "sl" =
      ("CRITICAL FAILURE: boom", [10, 10]) ∧
    (advanced_sliced_executor exFail2 "BTCUSDT" "Buy" 25 "tp" "sl").2.length ≠ 3 := by
  have hfound : exFail2.instrumentsInfo "BTCUSDT" = instBTC :: [] := rfl
  have hge : ¬ (25:ℚ) < instBTC.lotSizeFilter.minOrderQty := by norm_num [instBTC]
  have hmain : advanced_sliced_executor exFail2 "BTCUSDT" "Buy" 25 "tp" "sl" =
      ("CRITICAL FAILURE: boom", [10, 10]) := by
    rw [advanced_sliced_executor_run exFail2 "BTCUSDT" "Buy" 25 "tp" "sl" instBTC []
      hfound hge]
    have hmaxv : instBTC.lotSizeFilter.maxOrderQty = 10 := rfl
    rw [hmaxv, ceil_div_25_10]
    have h0 : exFail2.placeOrder 0 = Except.ok ("ID" ++ toString 0) := rfl
    have h1 : exFail2.placeOrder 1 = Except.error "boom" := rfl
    rw [show (3:Nat) = 2 + 1 from rfl]
    rw [execLoop_ok_step exFail2 2 0 25 10 [] [] ("ID" ++ toString 0) (by norm_num) h0]
    rw [show min (25:ℚ) 10 = 10 by norm_num [min_def], show (25:ℚ) - 10 = 15 by norm_num]
    rw [show (2:Nat) = 1 + 1 from rfl]
    rw [execLoop_error_step exFail2 1 1 15 10 _ _ "boom" (by norm_num) h1]
    rw [show min (15:ℚ) 10 = 10 by norm_num [min_def]]
    rfl
  exact ⟨hmain, by rw [hmain]; simp⟩

/-- C1 (amended): submission failures are not recorded per slice: if the
first submission raises, the loop aborts with that one attempt made and the
operation returns the single aggregate failure string; a per-slice report
(one success line per slice) is returned only when every submission
succeeds. -/
theorem sliced_executor_failure_aborts_and_success_reports (ex : Exchange)
    (symbol side tp sl : String) (total : ℚ) (inst : Instrument)
    (rest : List Instrument)
    (hfound : ex.instrumentsInfo symbol = inst :: rest)
    (hminpos : 0 < inst.lotSizeFilter.minOrderQty)
    (hge : inst.lotSizeFilter.minOrderQty ≤ total)
    (hmax : 0 < inst.lotSizeFilter.maxOrderQty) :
    (∀ e, ex.placeOrder 0 = Except.error e →
      advanced_sliced_executor ex symbol side total tp sl =
        ("CRITICAL FAILURE: " ++ e, [min total inst.lotSizeFilter.maxOrderQty])) ∧
    (∀ f : Nat → String, (∀ j, ex.placeOrder j = Except.ok (f j)) →
      advanced_sliced_executor ex symbol side total tp sl =
        ("SUCCESS: Fully executed " ++ ratStr total ++ " " ++ symbol ++ " in " ++
          toString (slices total inst.lotSizeFilter.maxOrderQty).length ++ " slices:\n" ++
          String.intercalate "\n"
            (sliceLabels f 0 (slices total inst.lotSizeFilter.maxOrderQty)),
         slices total inst.lotSizeFilter.maxOrderQty)) := by
  have htot : 0 < total := lt_of_lt_of_le hminpos hge
  constructor
  · intro e he
    rw [advanced_sliced_executor_run ex symbol side total tp sl inst rest hfound
      (not_lt.2 hge)]
    have hfuel : 0 < ⌈total / inst.lotSizeFilter.maxOrderQty⌉₊ := by
      rw [Nat.ceil_pos]
      exact div_pos htot hmax
    obtain ⟨g, hg⟩ : ∃ g, ⌈total / inst.lotSizeFilter.maxOrderQty⌉₊ = g + 1 :=
      ⟨⌈total / inst.lotSizeFilter.maxOrderQty⌉₊ - 1, by omega⟩
    rw [hg]
    rw [execLoop_error_step ex g 0 total inst.lotSizeFilter.maxOrderQty [] [] e htot he]
    simp
  · intro f hok
    rw [advanced_sliced_executor_run ex symbol side total tp sl inst rest hfound
      (not_lt.2 hge)]
    rw [execLoop_allOk ex f hok]
    simp only [List.nil_append]
    rw [sliceLabels_length]
    rfl

/-- C1 (amended) witness: the all-success branch at total 25, maximum 10. -/
theorem sliced_executor_failure_aborts_and_success_reports_witness :
    exOk.instrumentsInfo "BTCUSDT" = instBTC :: [] ∧
    (0:ℚ) < instBTC.lotSizeFilter.minOrderQty ∧
    instBTC.lotSizeFilter.minOrderQty ≤ 25 ∧
    (0:ℚ) < instBTC.lotSizeFilter.maxOrderQty ∧
    advanced_sliced_executor exOk "BTCUSDT" "Buy" 25 "tp" "sl" =
      ("SUCCESS: Fully executed " ++ ratStr 25 ++ " " ++ "BTCUSDT" ++ " in " ++
        toString (slices 25 instBTC.lotSizeFilter.maxOrderQty).length ++ " slices:\n" ++
        String.intercalate "\n" (sliceLabels (fun i => "ID" ++ toString i) 0
          (slices 25 instBTC.lotSizeFilter.maxOrderQty)),
       slices 25 instBTC.lotSizeFilter.maxOrderQty) :=
  ⟨rfl, by norm_num [instBTC], by norm_num [instBTC], by norm_num [instBTC],
   (sliced_executor_failure_aborts_and_success_reports exOk "BTCUSDT" "Buy" "tp" "sl"
     25 instBTC [] rfl (by norm_num [instBTC]) (by norm_num [instBTC])
     (by norm_num [instBTC])).2 (fun i => "ID" ++ toString i) (fun j => rfl)⟩

end CryptAgent
